import Mathlib

/-!
Verification of the retrieval-selection and attribution engine of the
codealign RAG service.  The definitions below are a shallow embedding of
the JavaScript sources `rag-api/enhancedChunking.js` (query classifier,
adaptive chunk selector, rerank fallback scoring, LLM-response parsing)
and `rag-api/server.js` (citation attribution and reference rewriting).
Strings are modelled as `List Char`, JavaScript numbers as `ℚ` (scores)
and `ℕ` (token counts, indices); `||`-defaulting on numbers treats `0`
as falsy, as JavaScript does.
-/

namespace CodeAlign

/-! ## JavaScript string primitives -/

/-- Character class of the JS regex `\s` (the members relevant to this
codebase: ASCII whitespace plus NBSP and BOM). -/
def jsIsWs (c : Char) : Bool :=
  c = ' ' || c = '\t' || c = '\n' || c = '\r' ||
  c = Char.ofNat 11 || c = Char.ofNat 12 ||
  c = Char.ofNat 0xa0 || c = Char.ofNat 0xfeff

/-- Character class of the JS regex `\w`: ASCII letters, digits, underscore. -/
def jsIsWordChar (c : Char) : Bool :=
  ('a' ≤ c && c ≤ 'z') || ('A' ≤ c && c ≤ 'Z') || ('0' ≤ c && c ≤ '9') || c = '_'

/-- ASCII uppercase test, the JS character class `[A-Z]`. -/
def jsIsUpper (c : Char) : Bool :=
  'A' ≤ c && c ≤ 'Z'

/-- Lowercasing a string, `String.prototype.toLowerCase` (ASCII part). -/
def lowerStr (s : List Char) : List Char :=
  s.map Char.toLower

/-- JS `String.prototype.trim`: drop whitespace from both ends. -/
def jsTrim (s : List Char) : List Char :=
  ((s.dropWhile jsIsWs).reverse.dropWhile jsIsWs).reverse

/-- Case-insensitive prefix test used for the anchored `/^.../i` regexes of
`classifyQuery`: does `lowerStr s` start with the (lowercase) pattern `p`? -/
def ciStartsWith (p : List Char) (s : List Char) : Bool :=
  decide (p <+: lowerStr s)

/-- JS `String.prototype.split(/\s+/)`: the fields between maximal
whitespace runs, keeping an empty first (resp. last) field when the string
starts (resp. ends) with whitespace, and `[""]` for the empty string. -/
def jsSplitWs : List Char → List (List Char)
  | [] => [[]]
  | c :: rest =>
    if jsIsWs c then
      [] :: jsSplitWs (rest.dropWhile jsIsWs)
    else
      match jsSplitWs rest with
      | [] => [[c]]
      | f :: fs => (c :: f) :: fs
termination_by s => s.length
decreasing_by
  · simp only [List.length_cons]
    exact Nat.lt_succ_of_le (List.dropWhile_suffix jsIsWs).length_le
  · simp

/-! ## Query classifier (`QueryClassifier.classifyQuery`) -/

/-- The query-type tags of the per-type budget table.  `analysis` has a
budget row but, as proved below, is never produced by `classifyQuery`. -/
inductive QueryType where
  | definition
  | specific_section
  | yes_no
  | list
  | procedure
  | analysis
  | general
deriving DecidableEq

/-- Regex `/^(what is|define|definition of)/i` on the query. -/
def matchesDefinition (q : List Char) : Bool :=
  ciStartsWith ("what is".toList) q || ciStartsWith ("define".toList) q ||
  ciStartsWith ("definition of".toList) q

/-- Regex `/^(section|appendix|chapter)\s+[A-Z0-9]/i`: one of the three
keywords at the start, at least one whitespace character, then an ASCII
alphanumeric (the `i` flag makes `[A-Z0-9]` case-insensitive). -/
def matchesSectionRef (q : List Char) : Bool :=
  let l := lowerStr q
  let afterWord (w : List Char) : Bool :=
    if w <+: l then
      let rest := l.drop w.length
      match rest with
      | [] => false
      | c :: _ =>
        jsIsWs c &&
          (match rest.dropWhile jsIsWs with
           | [] => false
           | d :: _ => ('a' ≤ d && d ≤ 'z') || ('0' ≤ d && d ≤ '9'))
    else false
  afterWord ("section".toList) || afterWord ("appendix".toList) ||
  afterWord ("chapter".toList)

/-- Does the word `w` occur in `s` at some position with a `\b` word
boundary on both sides (predecessor and successor are absent or
non-word characters)?  `w` is assumed to start and end with word
characters, which holds for every alternative used below. -/
def hasWordAt : Option Char → List Char → List Char → Bool
  | _, _, [] => false
  | prev, w, c :: rest =>
    (decide (w <+: (c :: rest)) &&
      (match prev with | none => true | some p => !jsIsWordChar p) &&
      (match (c :: rest).drop w.length with
       | [] => true
       | d :: _ => !jsIsWordChar d)) ||
    hasWordAt (some c) w rest

/-- Regex `/\b(list|all|enumerate|requirements for)\b/i`: an unanchored,
word-bounded search for one of the alternatives. -/
def matchesList (q : List Char) : Bool :=
  let l := lowerStr q
  hasWordAt none ("list".toList) l || hasWordAt none ("all".toList) l ||
  hasWordAt none ("enumerate".toList) l ||
  hasWordAt none ("requirements for".toList) l

/-- Regex `/^(is|are|does|must|can|should|do I need)\b/i`: an anchored
alternative followed by a word boundary. -/
def matchesYesNo (q : List Char) : Bool :=
  let l := lowerStr q
  let anchored (w : List Char) : Bool :=
    decide (w <+: l) &&
      (match l.drop w.length with
       | [] => true
       | d :: _ => !jsIsWordChar d)
  anchored ("is".toList) || anchored ("are".toList) || anchored ("does".toList) ||
  anchored ("must".toList) || anchored ("can".toList) ||
  anchored ("should".toList) || anchored ("do i need".toList)

/-- Regex `/^(how to|how do|procedure|steps)/i`. -/
def matchesProcedure (q : List Char) : Bool :=
  ciStartsWith ("how to".toList) q || ciStartsWith ("how do".toList) q ||
  ciStartsWith ("procedure".toList) q || ciStartsWith ("steps".toList) q

/-- `QueryClassifier.classifyQuery`: the ordered first-match rule chain of
the source, with `general` as the default. -/
def classifyQuery (q : List Char) : QueryType :=
  if matchesDefinition q then .definition
  else if matchesSectionRef q then .specific_section
  else if matchesList q then .list
  else if matchesYesNo q then .yes_no
  else if matchesProcedure q then .procedure
  else .general

/-! ## Per-type budgets -/

/-- One row of the `typeConfig` table of `selectChunksWithTokenBudget`. -/
structure SelectionConfig where
  maxTokens : ℕ
  minTokens : ℕ
  retrieveLimit : ℕ
deriving DecidableEq

/-- The `typeConfig` table of `selectChunksWithTokenBudget`. -/
def typeConfig : QueryType → SelectionConfig
  | .definition => ⟨800, 200, 25⟩
  | .specific_section => ⟨1000, 300, 30⟩
  | .yes_no => ⟨1000, 300, 30⟩
  | .list => ⟨2800, 700, 50⟩
  | .procedure => ⟨2000, 500, 40⟩
  | .analysis => ⟨4000, 800, 60⟩
  | .general => ⟨5000, 400, 300⟩

/-- The `retrievalLimits` table of the `/api/query` handler in `server.js`. -/
def retrievalLimits : QueryType → ℕ
  | .definition => 25
  | .specific_section => 30
  | .yes_no => 30
  | .list => 50
  | .procedure => 40
  | .analysis => 60
  | .general => 300

/-! ## Rerank scoring (`estimateTokenCount`, `simulateRerankScore`) -/

/-- `estimateTokenCount`: `Math.ceil(text.length * 0.25)`. -/
def estimateTokenCount (text : List Char) : ℕ :=
  (text.length + 3) / 4

/-- The fraction of whitespace-separated query terms present in the chunk
text (duplicated query terms counted each time, as the source's
`forEach` does). -/
def overlapFrac (query chunkText : List Char) : ℚ :=
  let queryWords := jsSplitWs (lowerStr query)
  let textWords := jsSplitWs (lowerStr chunkText)
  let overlap := (queryWords.filter (fun w => w ∈ textWords)).length
  (overlap : ℚ) / (queryWords.length : ℚ)

/-- `QueryClassifier.simulateRerankScore`: the deterministic lexical-overlap
fallback, `(overlapRatio * 8) - 2`. -/
def simulateRerankScore (query chunkText : List Char) : ℚ :=
  overlapFrac query chunkText * 8 - 2

/-! ## Candidate pool -/

/-- A member of `vectorResults` as consumed by the selector: its text, its
`metadata.vector_score` and an optional pre-existing `rerank_score`.
`Option` models absent fields; the JS `||` defaults additionally treat a
present `0` as absent. -/
structure VChunk where
  text : List Char
  vector_score : Option ℚ
  rerank_score : Option ℚ
deriving DecidableEq

/-- A candidate after the upfront scoring pass: `rerank_score` is now
always known and `original_index` records the position in
`vectorResults`. -/
structure RChunk where
  text : List Char
  vector_score : Option ℚ
  rerank_score : ℚ
  original_index : ℕ
deriving DecidableEq

/-- `chunk.metadata?.vector_score || 0`. -/
def vecOf (c : RChunk) : ℚ :=
  c.vector_score.getD 0

/-- Scoring of one candidate: `chunk.rerank_score ||
this.simulateRerankScore(query, chunk.text)` (a present score of `0` is
falsy and is replaced by the fallback). -/
def scoreOne (query : List Char) (i : ℕ) (c : VChunk) : RChunk :=
  { text := c.text
    vector_score := c.vector_score
    rerank_score :=
      match c.rerank_score with
      | some s => if s = 0 then simulateRerankScore query c.text else s
      | none => simulateRerankScore query c.text
    original_index := i }

/-- STEP 1 of `selectChunksWithTokenBudget`: `vectorResults.map((chunk,
index) => ...)`, attaching a rerank score and the original index. -/
def scoreAllChunks (query : List Char) (vectorResults : List VChunk) : List RChunk :=
  vectorResults.enum.map (fun p => scoreOne query p.1 p.2)

/-- Stable insertion (descending by `vecOf`) used to model the stable
JS `Array.prototype.sort` with comparator `b.vector_score - a.vector_score`:
the new element goes in front of the first element whose score is not
larger, so earlier elements win ties. -/
def insertVecDesc (c : RChunk) : List RChunk → List RChunk
  | [] => [c]
  | d :: ds => if vecOf d ≤ vecOf c then c :: d :: ds else d :: insertVecDesc c ds

/-- STEP 3, list 1: `vectorSortedChunks`, the scored pool sorted by vector
score, highest first (stable). -/
def sortByVecDesc : List RChunk → List RChunk
  | [] => []
  | c :: cs => insertVecDesc c (sortByVecDesc cs)

/-- Descending insertion for rationals (the `rerankScores` sort). -/
def insertQDesc (x : ℚ) : List ℚ → List ℚ
  | [] => [x]
  | y :: ys => if y ≤ x then x :: y :: ys else y :: insertQDesc x ys

/-- `rerankScores`: all rerank scores sorted descending. -/
def sortQDesc : List ℚ → List ℚ
  | [] => []
  | x :: xs => insertQDesc x (sortQDesc xs)

/-- `getPercentileThreshold`: `rerankScores[Math.min(Math.floor((p / 100) *
n), n - 1)]`.  For the empty pool the JS expression indexes out of range
and yields `undefined`, which the loop then never uses on any comparison
that matters (the scan list is empty too); the model returns `0` there. -/
def getPercentileThreshold (scores : List ℚ) (percentile : ℕ) : ℚ :=
  scores.getD (min (percentile * scores.length / 100) (scores.length - 1)) 0

/-! ## Adaptive selection loop -/

/-- The constant `VECTOR_THRESHOLD = 0.5` of `selectChunksWithTokenBudget`
(written as a normalized rational literal). -/
def VECTOR_THRESHOLD : ℚ := ⟨1, 2, by decide, by decide⟩

/-- The `reason` strings attached to skipped / stopping profile entries. -/
inductive SkipReason where
  | vectorBelowThreshold
  | rerankBelowPercentile
  | tokenBudgetExceeded
  | tokenBudgetSkipLargeChunk
deriving DecidableEq

/-- The recorded `stopReason` values. -/
inductive StopReason where
  | completedAllChunks
  | tokenBudget (wouldTotal maxTokens : ℕ)
  | exhaustedAllPercentiles
  | maxIterationsReached
deriving DecidableEq

/-- One `chunkProfile` entry of the selection trace (numeric fields are
kept exact; the source rounds them for display when logging). -/
structure ProfileEntry where
  index : ℕ
  vector_score : ℚ
  rerank_score : ℚ
  chunk_tokens : ℕ
  selected : Bool
  reason : Option SkipReason
  iteration : ℕ
  quality_percentile : ℕ
  quality_threshold : ℚ
deriving DecidableEq

/-- The mutable state of the selection loop.  `selThisIter` is the
iteration-local `chunksSelectedThisIteration` counter and `stopped`
models the `break` out of the inner `for` on a budget stop. -/
structure LoopState where
  selectedChunks : List RChunk
  tokensUsed : ℕ
  rerankScoreSum : ℚ
  stopReason : StopReason
  selectionProfile : List ProfileEntry
  chunksSkipped : ℕ
  chunksConsidered : ℕ
  totalChunksProcessed : ℕ
  currentPercentile : ℕ
  currentThreshold : ℚ
  iterationNumber : ℕ
  selThisIter : ℕ
  stopped : Bool
deriving DecidableEq

/-- The `chunkProfile` record as first initialized for a visited chunk
(before a branch stamps its decision). -/
def mkProfileEntry (s : LoopState) (i : ℕ) (c : RChunk) (chunkTokens : ℕ) : ProfileEntry :=
  { index := i
    vector_score := vecOf c
    rerank_score := c.rerank_score
    chunk_tokens := chunkTokens
    selected := false
    reason := none
    iteration := s.iterationNumber
    quality_percentile := s.currentPercentile
    quality_threshold := s.currentThreshold }

/-- The body of the inner `for` loop for one candidate `(i, chunk)` of the
vector-ordered list.  A `stopped` state passes through unchanged (the JS
`break` leaves the rest of the list unvisited); each other branch carries
the `totalChunksProcessed` / `chunksConsidered` increments that the JS
performs before branching. -/
def processChunk (cfg : SelectionConfig) (s : LoopState) (ic : ℕ × RChunk) : LoopState :=
  if s.stopped then s
  else if s.selectedChunks.any (fun sc => sc.original_index = ic.2.original_index) then s
  else if vecOf ic.2 < VECTOR_THRESHOLD then
    { s with
      totalChunksProcessed := s.totalChunksProcessed + 1
      chunksConsidered := s.chunksConsidered + 1
      chunksSkipped := s.chunksSkipped + 1
      selectionProfile := s.selectionProfile ++
        [{ mkProfileEntry s ic.1 ic.2 (estimateTokenCount ic.2.text) with
             reason := some .vectorBelowThreshold }] }
  else if ic.2.rerank_score < s.currentThreshold then
    { s with
      totalChunksProcessed := s.totalChunksProcessed + 1
      chunksConsidered := s.chunksConsidered + 1
      chunksSkipped := s.chunksSkipped + 1
      selectionProfile := s.selectionProfile ++
        [{ mkProfileEntry s ic.1 ic.2 (estimateTokenCount ic.2.text) with
             reason := some .rerankBelowPercentile }] }
  else if cfg.maxTokens < s.tokensUsed + estimateTokenCount ic.2.text then
    if cfg.minTokens ≤ s.tokensUsed then
      { s with
        totalChunksProcessed := s.totalChunksProcessed + 1
        chunksConsidered := s.chunksConsidered + 1
        selectionProfile := s.selectionProfile ++
          [{ mkProfileEntry s ic.1 ic.2 (estimateTokenCount ic.2.text) with
               reason := some .tokenBudgetExceeded }]
        stopReason := .tokenBudget (s.tokensUsed + estimateTokenCount ic.2.text) cfg.maxTokens
        currentPercentile := 101
        stopped := true }
    else
      { s with
        totalChunksProcessed := s.totalChunksProcessed + 1
        chunksConsidered := s.chunksConsidered + 1
        chunksSkipped := s.chunksSkipped + 1
        selectionProfile := s.selectionProfile ++
          [{ mkProfileEntry s ic.1 ic.2 (estimateTokenCount ic.2.text) with
               reason := some .tokenBudgetSkipLargeChunk }] }
  else
    { s with
      totalChunksProcessed := s.totalChunksProcessed + 1
      chunksConsidered := s.chunksConsidered + 1
      selectedChunks := s.selectedChunks ++ [ic.2]
      tokensUsed := s.tokensUsed + estimateTokenCount ic.2.text
      rerankScoreSum := s.rerankScoreSum + ic.2.rerank_score
      selThisIter := s.selThisIter + 1
      selectionProfile := s.selectionProfile ++
        [{ mkProfileEntry s ic.1 ic.2 (estimateTokenCount ic.2.text) with
             selected := true }] }

/-- The trailing safety check of the `while` body: at 20 iterations the
loop records `max_iterations_reached` and breaks. -/
def safetyCheck (s : LoopState) : LoopState × Bool :=
  if 20 ≤ s.iterationNumber then ({ s with stopReason := .maxIterationsReached }, true)
  else (s, false)

/-- One full iteration of the `while` loop: reset the per-iteration
counters, scan the vector-ordered list, then run the expansion /
nearly-full / safety logic.  The boolean is `true` when the iteration
`break`s out of the `while`. -/
def iterBody (cfg : SelectionConfig) (sorted : List (ℕ × RChunk)) (scores : List ℚ)
    (s : LoopState) : LoopState × Bool :=
  let s1 := { s with
    iterationNumber := s.iterationNumber + 1
    selThisIter := 0
    stopped := false }
  let s2 := sorted.foldl (processChunk cfg) s1
  if s2.selThisIter = 0 ∧ s2.tokensUsed < cfg.maxTokens then
    let pct := s2.currentPercentile + 5
    if pct ≤ 100 then
      safetyCheck { s2 with
        currentPercentile := pct
        currentThreshold := getPercentileThreshold scores pct }
    else
      safetyCheck { s2 with
        currentPercentile := pct
        stopReason := .exhaustedAllPercentiles }
  else if 0 < s2.selThisIter ∧ cfg.maxTokens - 100 ≤ s2.tokensUsed then
    (s2, true)
  else
    safetyCheck s2

/-- The `while (tokensUsed < config.maxTokens && currentPercentile <= 100)`
loop, fuel-indexed.  The source's own 20-iteration safety valve makes any
fuel of at least 21 sufficient (proved below). -/
def loopAux (cfg : SelectionConfig) (sorted : List (ℕ × RChunk)) (scores : List ℚ) :
    ℕ → LoopState → LoopState
  | 0, s => s
  | fuel + 1, s =>
    if s.tokensUsed < cfg.maxTokens ∧ s.currentPercentile ≤ 100 then
      let r := iterBody cfg sorted scores s
      if r.2 then r.1 else loopAux cfg sorted scores fuel r.1
    else s

/-- The initial loop state (`currentPercentile = 5`, threshold at the top
5th percentile, `chunksReranked` handled outside of the loop state). -/
def initState (scores : List ℚ) : LoopState :=
  { selectedChunks := []
    tokensUsed := 0
    rerankScoreSum := 0
    stopReason := .completedAllChunks
    selectionProfile := []
    chunksSkipped := 0
    chunksConsidered := 0
    totalChunksProcessed := 0
    currentPercentile := 5
    currentThreshold := getPercentileThreshold scores 5
    iterationNumber := 0
    selThisIter := 0
    stopped := false }

/-- The value returned by `selectChunksWithTokenBudget`. -/
structure SelectionResult where
  selectedChunks : List RChunk
  selectedCount : ℕ
  tokenBudget : ℕ
  tokensUsed : ℕ
  avgRerankScore : ℚ
  meetsMinimum : Bool
  stopReason : StopReason
  chunksConsidered : ℕ
  chunksSkipped : ℕ
  chunksReranked : ℕ
  selectionProfile : List ProfileEntry
deriving DecidableEq

/-- The result record built from the final loop state when the loop
admitted at least one chunk (or the pool is empty). -/
def mkLoopResult (cfg : SelectionConfig) (chunksReranked : ℕ) (fin : LoopState) :
    SelectionResult :=
  { selectedChunks := fin.selectedChunks
    selectedCount := fin.selectedChunks.length
    tokenBudget := cfg.maxTokens
    tokensUsed := fin.tokensUsed
    avgRerankScore :=
      if fin.selectedChunks.length = 0 then 0
      else fin.rerankScoreSum / (fin.selectedChunks.length : ℚ)
    meetsMinimum := decide (cfg.minTokens ≤ fin.tokensUsed)
    stopReason := fin.stopReason
    chunksConsidered := fin.chunksConsidered
    chunksSkipped := fin.chunksSkipped
    chunksReranked := chunksReranked
    selectionProfile := fin.selectionProfile }

/-- The result record of the forced fallback: the head of the
vector-sorted list is admitted alone (`best.rerank_score ||
simulateRerankScore(...)` recomputes a falsy score) and `tokensUsed` is
overwritten with that chunk's estimate. -/
def mkFallbackResult (query : List Char) (cfg : SelectionConfig) (chunksReranked : ℕ)
    (fin : LoopState) (best : RChunk) : SelectionResult :=
  let rs := if best.rerank_score = 0 then simulateRerankScore query best.text
            else best.rerank_score
  { selectedChunks := [{ best with rerank_score := rs }]
    selectedCount := 1
    tokenBudget := cfg.maxTokens
    tokensUsed := estimateTokenCount best.text
    avgRerankScore := rs
    meetsMinimum := decide (cfg.minTokens ≤ estimateTokenCount best.text)
    stopReason := fin.stopReason
    chunksConsidered := fin.chunksConsidered
    chunksSkipped := fin.chunksSkipped
    chunksReranked := chunksReranked + 1
    selectionProfile := fin.selectionProfile }

/-- `QueryClassifier.selectChunksWithTokenBudget`, end to end: upfront
scoring, vector-descending ordering, the adaptive percentile loop, the
single-chunk forced fallback, and the result record. -/
def selectChunksWithTokenBudget (query : List Char) (vectorResults : List VChunk)
    (queryType : QueryType) : SelectionResult :=
  let cfg := typeConfig queryType
  let allReranked := scoreAllChunks query vectorResults
  let sorted := sortByVecDesc allReranked
  let scores := sortQDesc (allReranked.map (fun c => c.rerank_score))
  let fin := loopAux cfg sorted.enum scores 21 (initState scores)
  if fin.selectedChunks = [] then
    match sorted with
    | best :: _ => mkFallbackResult query cfg allReranked.length fin best
    | [] => mkLoopResult cfg allReranked.length fin
  else mkLoopResult cfg allReranked.length fin

/-! ## Response parsing (`PromptEnhancer.parseLLMResponse`) -/

/-- The replacement `llmResponse.replace(/^ANSWER:\s*/i, '')`: when the
string starts with a case-insensitive `ANSWER:`, drop it together with
the following whitespace run. -/
def dropAnswerTag (s : List Char) : List Char :=
  if lowerStr (s.take 7) = "answer:".toList then (s.drop 7).dropWhile jsIsWs
  else s

/-- All matches of `/\[([A-Z])\]/g`, left to right and non-overlapping:
the captured letters, in order, duplicates kept. -/
def findMarkers : List Char → List Char
  | a :: b :: c :: rest =>
    if a = '[' ∧ c = ']' ∧ jsIsUpper b then b :: findMarkers rest
    else findMarkers (b :: c :: rest)
  | _ => []

/-- Order-preserving deduplication, the semantics of
`[...new Set(array)]`: first occurrences survive, in order. -/
def dedupFirstAux (seen : List Char) : List Char → List Char
  | [] => []
  | c :: rest =>
    if c ∈ seen then dedupFirstAux seen rest
    else c :: dedupFirstAux (c :: seen) rest

/-- `[...new Set(markers)]`. -/
def dedupFirst (l : List Char) : List Char :=
  dedupFirstAux [] l

/-- The fields of the object returned by `parseLLMResponse` that the
pipeline consumes (`success` is always `true`: the `try` body is total). -/
structure ParsedResponse where
  answer : List Char
  sourcesUsed : List Char
  citationsFound : ℕ
  uniqueSources : ℕ
deriving DecidableEq

/-- `PromptEnhancer.parseLLMResponse`: strip the optional `ANSWER:`
prefix, trim, extract the bracketed single-uppercase-letter markers and
deduplicate them in order of first appearance. -/
def parseLLMResponse (llmResponse : List Char) : ParsedResponse :=
  let answer := jsTrim (dropAnswerTag llmResponse)
  let markerMatches := findMarkers answer
  let sourcesUsed := dedupFirst markerMatches
  { answer := answer
    sourcesUsed := sourcesUsed
    citationsFound := markerMatches.length
    uniqueSources := sourcesUsed.length }

/-! ## Attribution (`buildLLMGuidedAttribution`, `enhanceAnswerWithReferences`) -/

/-- A selected chunk as seen by the attribution step: the prompt builder
has stored a single-letter `label` in its metadata. -/
structure AChunk where
  text : List Char
  document : List Char
  db_document_id : Option ℕ
  page_number : Option ℕ
  sectionId : Option (List Char)
  label : Option Char
deriving DecidableEq

/-- `chunk.metadata.page_number || 'N/A'`: `none` stands for `'N/A'`; a
present page number `0` is falsy in JS and also becomes `'N/A'`. -/
def pageField (p : Option ℕ) : Option ℕ :=
  match p with
  | some n => if n = 0 then none else some n
  | none => none

/-- `chunk.metadata.section || 'N/A'`: `none` stands for `'N/A'`; a
present empty string is falsy and also becomes `'N/A'`. -/
def sectionField (s : Option (List Char)) : Option (List Char) :=
  match s with
  | some t => if t = [] then none else some t
  | none => none

/-- `chunk.text.substring(0, 200) + (chunk.text.length > 200 ? '...' : '')`. -/
def excerptOf (text : List Char) : List Char :=
  text.take 200 ++ (if 200 < text.length then "...".toList else [])

/-- One element of the list built by `buildLLMGuidedAttribution`. -/
structure AttributedSource where
  document : List Char
  document_id : Option ℕ
  page : Option ℕ
  sectionId : Option (List Char)
  excerpt : List Char
  label : Char
deriving DecidableEq

/-- The source record built for a resolved label. -/
def mkAttributedSource (c : AChunk) (label : Char) : AttributedSource :=
  { document := c.document
    document_id := c.db_document_id
    page := pageField c.page_number
    sectionId := sectionField c.sectionId
    excerpt := excerptOf c.text
    label := label }

/-- `buildLLMGuidedAttribution` (server.js): for each used label, find the
chunk carrying that label and build a source record; unresolved labels
are skipped. -/
def buildLLMGuidedAttribution (selectedChunks : List AChunk) (sourcesUsed : List Char) :
    List AttributedSource :=
  if sourcesUsed = [] then []
  else sourcesUsed.filterMap (fun label =>
    (selectedChunks.find? (fun c => c.label = some label)).map
      (fun c => mkAttributedSource c label))

/-- One element of `finalSources`. -/
structure FinalSource where
  reference : List Char
  document : List Char
  document_id : Option ℕ
  page : Option ℕ
  sectionId : Option (List Char)
  excerpt : List Char
deriving DecidableEq

/-- Replace every match of `/\[L\]/g` (for the single uppercase letter
`L`) by `rep`, left to right and non-overlapping, as
`String.prototype.replace` with a global regex does. -/
def replaceMarker (label : Char) (rep : List Char) : List Char → List Char
  | a :: b :: c :: rest =>
    if a = '[' ∧ b = label ∧ c = ']' then rep ++ replaceMarker label rep rest
    else a :: replaceMarker label rep (b :: c :: rest)
  | other => other

/-- The numbered reference string `[n]`. -/
def numberRef (n : ℕ) : List Char :=
  '[' :: (Nat.toDigits 10 n ++ [']'])

/-- `enhanceAnswerWithReferences` (server.js): with no sources the answer
passes through untouched; otherwise every occurrence of each source's
label marker is rewritten to the sequential numeric marker and the final
source list is emitted with matching `reference` fields. -/
def enhanceAnswerWithReferences (answer : List Char)
    (llmGuidedSources : List AttributedSource) : List Char × List FinalSource :=
  if llmGuidedSources = [] then (answer, [])
  else
    llmGuidedSources.enum.foldl
      (fun acc p =>
        let ref := numberRef (p.1 + 1)
        (replaceMarker p.2.label ref acc.1,
         acc.2 ++ [{ reference := ref
                     document := p.2.document
                     document_id := p.2.document_id
                     page := p.2.page
                     sectionId := p.2.sectionId
                     excerpt := p.2.excerpt }]))
      (answer, [])

/-! ## Helper notions used by the theorems -/

/-- `s` contains an inline citation marker: a bracketed single ASCII
uppercase letter, somewhere in the string. -/
def HasMarker (s : List Char) : Prop :=
  ∃ l c r, jsIsUpper c = true ∧ s = l ++ '[' :: c :: ']' :: r

/-- `b` dominates every member of `l` by vector score. -/
def MaxVec (l : List RChunk) (b : RChunk) : Prop :=
  ∀ a ∈ l, vecOf a ≤ vecOf b

/-- The profile / percentile invariant maintained by the selection loop:
every trace entry was stamped with a percentile between 5 and the current
one, and the stamped percentiles are non-decreasing in trace order. -/
def ProfileInv (profile : List ProfileEntry) (pct : ℕ) : Prop :=
  (∀ e ∈ profile, 5 ≤ e.quality_percentile ∧ e.quality_percentile ≤ pct) ∧
  List.Chain' (fun a b => a.quality_percentile ≤ b.quality_percentile) profile ∧
  5 ≤ pct

/-- `ProfileInv` restated on a loop state. -/
def LoopInv (s : LoopState) : Prop :=
  ProfileInv s.selectionProfile s.currentPercentile

/-! ## Concrete fixtures for witnesses and counterexamples -/

/-- A candidate whose text estimates to 70 tokens and whose scores pass
every gate of the `definition` budget. -/
def cexChunk : VChunk :=
  { text := List.replicate 280 'x', vector_score := some 1, rerank_score := some 5 }

/-- Ten copies of `cexChunk`: all ten are admitted in the first pass and
reach 700 tokens, which triggers the nearly-full early stop of the
selection loop (700 = 800 - 100 for the `definition` budget). -/
def cexPool : List VChunk :=
  List.replicate 10 cexChunk

/-- The final loop state on `cexPool` under the `definition` budget. -/
def cexFin : LoopState :=
  loopAux (typeConfig .definition) (sortByVecDesc (scoreAllChunks ['q'] cexPool)).enum
    (sortQDesc ((scoreAllChunks ['q'] cexPool).map (fun c => c.rerank_score))) 21
    (initState (sortQDesc ((scoreAllChunks ['q'] cexPool).map (fun c => c.rerank_score))))

/-- A selected chunk labelled `A` for the attribution round trip. -/
def witChunkA : AChunk :=
  { text := "alpha text".toList
    document := "doc1.pdf".toList
    db_document_id := some 7
    page_number := some 3
    sectionId := some ("4.1".toList)
    label := some 'A' }

/-- A selected chunk labelled `B` for the attribution round trip. -/
def witChunkB : AChunk :=
  { text := "beta text".toList
    document := "doc2.pdf".toList
    db_document_id := none
    page_number := none
    sectionId := none
    label := some 'B' }

/-! ## Lemmas about the inner scan -/

theorem VECTOR_THRESHOLD_eq : VECTOR_THRESHOLD = 1 / 2 :=
  Rat.ext (by norm_num [VECTOR_THRESHOLD]) (by norm_num [VECTOR_THRESHOLD])

theorem processChunk_of_stopped (cfg : SelectionConfig) (s : LoopState) (ic : ℕ × RChunk)
    (h : s.stopped = true) : processChunk cfg s ic = s := by
  unfold processChunk
  simp [h]

theorem foldl_processChunk_of_stopped (cfg : SelectionConfig) (l : List (ℕ × RChunk))
    (s : LoopState) (h : s.stopped = true) : l.foldl (processChunk cfg) s = s := by
  induction l with
  | nil => rfl
  | cons a t ih => rw [List.foldl_cons, processChunk_of_stopped cfg s a h, ih]

theorem processChunk_iterationNumber (cfg : SelectionConfig) (s : LoopState) (ic : ℕ × RChunk) :
    (processChunk cfg s ic).iterationNumber = s.iterationNumber := by
  unfold processChunk
  split_ifs <;> rfl

theorem foldl_processChunk_iterationNumber (cfg : SelectionConfig) (l : List (ℕ × RChunk))
    (s : LoopState) : (l.foldl (processChunk cfg) s).iterationNumber = s.iterationNumber := by
  induction l generalizing s with
  | nil => rfl
  | cons a t ih => rw [List.foldl_cons, ih, processChunk_iterationNumber]

theorem processChunk_tokensUsed_le (cfg : SelectionConfig) (s : LoopState) (ic : ℕ × RChunk)
    (h : s.tokensUsed ≤ cfg.maxTokens) :
    (processChunk cfg s ic).tokensUsed ≤ cfg.maxTokens := by
  unfold processChunk
  split_ifs with h1 h2 h3 h4 h5 h6 <;> simp_all

theorem foldl_processChunk_tokensUsed_le (cfg : SelectionConfig) (l : List (ℕ × RChunk))
    (s : LoopState) (h : s.tokensUsed ≤ cfg.maxTokens) :
    (l.foldl (processChunk cfg) s).tokensUsed ≤ cfg.maxTokens := by
  induction l generalizing s with
  | nil => exact h
  | cons a t ih => exact ih _ (processChunk_tokensUsed_le cfg s a h)

/-! ## Lemmas about one iteration and the outer loop -/

theorem safetyCheck_iterationNumber (s : LoopState) :
    (safetyCheck s).1.iterationNumber = s.iterationNumber := by
  unfold safetyCheck
  split_ifs <;> rfl

theorem safetyCheck_tokensUsed (s : LoopState) :
    (safetyCheck s).1.tokensUsed = s.tokensUsed := by
  unfold safetyCheck
  split_ifs <;> rfl

theorem safetyCheck_false_iff (s : LoopState) :
    (safetyCheck s).2 = false ↔ s.iterationNumber < 20 := by
  unfold safetyCheck
  split_ifs with h <;> simp <;> omega

theorem iterBody_iterationNumber (cfg : SelectionConfig) (sorted : List (ℕ × RChunk))
    (scores : List ℚ) (s : LoopState) :
    (iterBody cfg sorted scores s).1.iterationNumber = s.iterationNumber + 1 := by
  simp only [iterBody]
  split_ifs <;>
    simp [safetyCheck_iterationNumber, foldl_processChunk_iterationNumber]

theorem iterBody_tokensUsed_le (cfg : SelectionConfig) (sorted : List (ℕ × RChunk))
    (scores : List ℚ) (s : LoopState) (h : s.tokensUsed ≤ cfg.maxTokens) :
    (iterBody cfg sorted scores s).1.tokensUsed ≤ cfg.maxTokens := by
  have hf : (sorted.foldl (processChunk cfg)
      { s with iterationNumber := s.iterationNumber + 1, selThisIter := 0,
               stopped := false }).tokensUsed ≤ cfg.maxTokens :=
    foldl_processChunk_tokensUsed_le cfg sorted _ h
  simp only [iterBody]
  split_ifs <;> simp [safetyCheck_tokensUsed, hf]

theorem iterBody_brk_false (cfg : SelectionConfig) (sorted : List (ℕ × RChunk))
    (scores : List ℚ) (s : LoopState) (h : (iterBody cfg sorted scores s).2 = false) :
    (iterBody cfg sorted scores s).1.iterationNumber < 20 := by
  simp only [iterBody] at h ⊢
  split_ifs at h ⊢ <;>
    simp_all [safetyCheck_false_iff, safetyCheck_iterationNumber]

theorem iterBody_brk_true (cfg : SelectionConfig) (sorted : List (ℕ × RChunk))
    (scores : List ℚ) (s : LoopState) (h : (iterBody cfg sorted scores s).2 = true) :
    cfg.maxTokens - 100 ≤ (iterBody cfg sorted scores s).1.tokensUsed ∨
    20 ≤ (iterBody cfg sorted scores s).1.iterationNumber := by
  simp only [iterBody, safetyCheck] at h ⊢
  split_ifs at h ⊢ <;> simp_all

theorem loopAux_tokensUsed_le (cfg : SelectionConfig) (sorted : List (ℕ × RChunk))
    (scores : List ℚ) : ∀ (f : ℕ) (s : LoopState), s.tokensUsed ≤ cfg.maxTokens →
    (loopAux cfg sorted scores f s).tokensUsed ≤ cfg.maxTokens := by
  intro f
  induction f with
  | zero => intro s h; exact h
  | succ f ih =>
    intro s h
    rw [loopAux]
    split_ifs with hc
    · by_cases hb : (iterBody cfg sorted scores s).2
      · simp only [hb, if_true]
        exact iterBody_tokensUsed_le cfg sorted scores s h
      · simp only [hb, if_false]
        exact ih _ (iterBody_tokensUsed_le cfg sorted scores s h)
    · exact h

theorem loopAux_stable (cfg : SelectionConfig) (sorted : List (ℕ × RChunk))
    (scores : List ℚ) : ∀ (f g : ℕ) (s : LoopState), s.iterationNumber ≤ 20 →
    21 ≤ f + s.iterationNumber → 21 ≤ g + s.iterationNumber →
    loopAux cfg sorted scores f s = loopAux cfg sorted scores g s := by
  intro f
  induction f with
  | zero => intro g s h20 hf _; omega
  | succ f ih =>
    intro g s h20 hf hg
    obtain ⟨g', rfl⟩ : ∃ g', g = g' + 1 := ⟨g - 1, by omega⟩
    rw [loopAux, loopAux]
    split_ifs with hc
    · by_cases hb : (iterBody cfg sorted scores s).2
      · simp only [hb, if_true]
      · simp only [hb, if_false]
        have hlt : (iterBody cfg sorted scores s).1.iterationNumber < 20 :=
          iterBody_brk_false cfg sorted scores s (by simpa using hb)
        have hit : (iterBody cfg sorted scores s).1.iterationNumber = s.iterationNumber + 1 :=
          iterBody_iterationNumber cfg sorted scores s
        exact ih g' _ (by omega) (by omega) (by omega)
    · rfl

theorem loopAux_exit (cfg : SelectionConfig) (sorted : List (ℕ × RChunk))
    (scores : List ℚ) : ∀ (f : ℕ) (s : LoopState), 21 ≤ f + s.iterationNumber →
    cfg.maxTokens - 100 ≤ (loopAux cfg sorted scores f s).tokensUsed ∨
    100 < (loopAux cfg sorted scores f s).currentPercentile ∨
    20 ≤ (loopAux cfg sorted scores f s).iterationNumber := by
  intro f
  induction f with
  | zero =>
    intro s hf
    right; right
    simp only [loopAux]
    omega
  | succ f ih =>
    intro s hf
    rw [loopAux]
    split_ifs with hc
    · by_cases hb : (iterBody cfg sorted scores s).2
      · simp only [hb, if_true]
        rcases iterBody_brk_true cfg sorted scores s hb with h | h
        · exact Or.inl h
        · exact Or.inr (Or.inr h)
      · simp only [hb, if_false]
        have hit : (iterBody cfg sorted scores s).1.iterationNumber = s.iterationNumber + 1 :=
          iterBody_iterationNumber cfg sorted scores s
        exact ih _ (by omega)
    · rcases not_and_or.mp hc with h | h
      · left; omega
      · right; left; omega

theorem loopAux_iterationNumber_le (cfg : SelectionConfig) (sorted : List (ℕ × RChunk))
    (scores : List ℚ) : ∀ (f : ℕ) (s : LoopState), s.iterationNumber ≤ 19 →
    (loopAux cfg sorted scores f s).iterationNumber ≤ 20 := by
  intro f
  induction f with
  | zero =>
    intro s h
    simp only [loopAux]
    omega
  | succ f ih =>
    intro s h
    rw [loopAux]
    split_ifs with hc
    · by_cases hb : (iterBody cfg sorted scores s).2
      · simp only [hb, if_true]
        have := iterBody_iterationNumber cfg sorted scores s
        omega
      · simp only [hb, if_false]
        have hlt : (iterBody cfg sorted scores s).1.iterationNumber < 20 :=
          iterBody_brk_false cfg sorted scores s (by simpa using hb)
        exact ih _ (by omega)
    · omega

/-! ## Lemmas about the vector-descending sort -/

theorem mem_insertVecDesc (c a : RChunk) (l : List RChunk) :
    a ∈ insertVecDesc c l ↔ a = c ∨ a ∈ l := by
  induction l with
  | nil => simp [insertVecDesc]
  | cons d ds ih =>
    unfold insertVecDesc
    split_ifs with h
    · simp
    · simp [ih]
      tauto

theorem mem_sortByVecDesc (a : RChunk) (l : List RChunk) :
    a ∈ sortByVecDesc l ↔ a ∈ l := by
  induction l with
  | nil => simp [sortByVecDesc]
  | cons c cs ih => simp [sortByVecDesc, mem_insertVecDesc, ih]

theorem sortByVecDesc_eq_nil_iff (l : List RChunk) :
    sortByVecDesc l = [] ↔ l = [] := by
  induction l with
  | nil => simp [sortByVecDesc]
  | cons c cs _ =>
    simp only [sortByVecDesc]
    constructor
    · intro h
      have : c ∈ insertVecDesc c (sortByVecDesc cs) := by
        rw [mem_insertVecDesc]; left; rfl
      rw [h] at this
      cases this
    · intro h; cases h

theorem insertVecDesc_head_max (c : RChunk) (l : List RChunk)
    (hl : ∀ b ∈ l.head?, MaxVec l b) :
    ∀ b ∈ (insertVecDesc c l).head?, MaxVec (c :: l) b := by
  induction l with
  | nil =>
    intro b hb
    simp [insertVecDesc] at hb
    subst hb
    intro a ha
    simp at ha
    simp [ha]
  | cons d ds _ =>
    intro b hb
    unfold insertVecDesc at hb
    split_ifs at hb with h
    · simp at hb
      subst hb
      intro a ha
      rcases List.mem_cons.mp ha with rfl | ha
      · exact le_refl _
      · exact le_trans (hl d (by simp) a ha) h
    · simp at hb
      subst hb
      push_neg at h
      intro a ha
      rcases List.mem_cons.mp ha with rfl | ha
      · exact le_of_lt h
      · exact hl d (by simp) a ha

theorem sortByVecDesc_head_max (l : List RChunk) :
    ∀ b ∈ (sortByVecDesc l).head?, MaxVec l b := by
  induction l with
  | nil => intro b hb; cases hb
  | cons c cs ih =>
    have hl : ∀ b ∈ (sortByVecDesc cs).head?, MaxVec (sortByVecDesc cs) b := by
      intro b hb a ha
      exact ih b hb a ((mem_sortByVecDesc a cs).mp ha)
    intro b hb
    have := insertVecDesc_head_max c (sortByVecDesc cs)
      (by intro x hx a ha; exact hl x hx a ha) b hb
    intro a ha
    rcases List.mem_cons.mp ha with rfl | ha
    · exact this a (by simp)
    · exact this a (by simp [mem_sortByVecDesc, ha])

/-! ## Percentile-monotonicity invariant -/

theorem profileInv_mono (profile : List ProfileEntry) (a b : ℕ)
    (h : ProfileInv profile a) (hab : a ≤ b) : ProfileInv profile b := by
  obtain ⟨hmem, hchain, h5⟩ := h
  exact ⟨fun e he => ⟨(hmem e he).1, le_trans (hmem e he).2 hab⟩, hchain, le_trans h5 hab⟩

theorem profileInvAppend (profile : List ProfileEntry) (pct : ℕ) (pe : ProfileEntry)
    (h : ProfileInv profile pct) (hpe : pe.quality_percentile = pct) :
    ProfileInv (profile ++ [pe]) pct := by
  obtain ⟨hmem, hchain, h5⟩ := h
  refine ⟨?_, ?_, h5⟩
  · intro e he
    rcases List.mem_append.mp he with he | he
    · exact hmem e he
    · simp at he
      subst he
      exact ⟨by omega, by omega⟩
  · rw [List.chain'_append]
    refine ⟨hchain, List.chain'_singleton _, ?_⟩
    intro x hx y hy
    simp at hy
    subst hy
    rw [hpe]
    exact (hmem x (List.mem_of_mem_getLast? hx)).2

theorem processChunk_inv (cfg : SelectionConfig) (s : LoopState) (ic : ℕ × RChunk)
    (h : LoopInv s) (h2 : s.stopped = false → s.currentPercentile ≤ 100) :
    LoopInv (processChunk cfg s ic) ∧
    ((processChunk cfg s ic).stopped = false →
      (processChunk cfg s ic).currentPercentile ≤ 100) := by
  unfold processChunk
  split_ifs with h1 hsel hvec hrr hbud hmin
  · exact ⟨h, h2⟩
  · exact ⟨h, h2⟩
  · exact ⟨profileInvAppend _ _ _ h rfl, h2⟩
  · exact ⟨profileInvAppend _ _ _ h rfl, h2⟩
  · have hpct : s.currentPercentile ≤ 100 := h2 (by simpa using h1)
    refine ⟨?_, by intro hx; cases hx⟩
    show ProfileInv _ _
    dsimp only
    exact profileInv_mono _ _ _ (profileInvAppend _ _ _ h rfl) (by omega)
  · exact ⟨profileInvAppend _ _ _ h rfl, h2⟩
  · exact ⟨profileInvAppend _ _ _ h rfl, h2⟩

theorem foldl_processChunk_inv (cfg : SelectionConfig) (l : List (ℕ × RChunk)) :
    ∀ (s : LoopState), LoopInv s → (s.stopped = false → s.currentPercentile ≤ 100) →
    LoopInv (l.foldl (processChunk cfg) s) ∧
    ((l.foldl (processChunk cfg) s).stopped = false →
      (l.foldl (processChunk cfg) s).currentPercentile ≤ 100) := by
  induction l with
  | nil => intro s h h2; exact ⟨h, h2⟩
  | cons a t ih =>
    intro s h h2
    rw [List.foldl_cons]
    obtain ⟨h', h2'⟩ := processChunk_inv cfg s a h h2
    exact ih _ h' h2'

theorem safetyCheck_profile_pct (s : LoopState) :
    (safetyCheck s).1.selectionProfile = s.selectionProfile ∧
    (safetyCheck s).1.currentPercentile = s.currentPercentile := by
  unfold safetyCheck
  split_ifs <;> exact ⟨rfl, rfl⟩

theorem iterBody_inv (cfg : SelectionConfig) (sorted : List (ℕ × RChunk)) (scores : List ℚ)
    (s : LoopState) (h : LoopInv s) (hpct : s.currentPercentile ≤ 100) :
    LoopInv (iterBody cfg sorted scores s).1 := by
  have hs1 : LoopInv { s with
      iterationNumber := s.iterationNumber + 1
      selThisIter := 0
      stopped := false } := h
  obtain ⟨hf, _⟩ := foldl_processChunk_inv cfg sorted _ hs1 (fun _ => hpct)
  simp only [iterBody]
  split_ifs with hc1 hc2 hc3
  · rw [show LoopInv _ = ProfileInv _ _ from rfl]
    rw [(safetyCheck_profile_pct _).1, (safetyCheck_profile_pct _).2]
    dsimp only
    exact profileInv_mono _ _ _ hf (by omega)
  · rw [show LoopInv _ = ProfileInv _ _ from rfl]
    rw [(safetyCheck_profile_pct _).1, (safetyCheck_profile_pct _).2]
    dsimp only
    exact profileInv_mono _ _ _ hf (by omega)
  · exact hf
  · rw [show LoopInv _ = ProfileInv _ _ from rfl]
    rw [(safetyCheck_profile_pct _).1, (safetyCheck_profile_pct _).2]
    exact hf

theorem loopAux_inv (cfg : SelectionConfig) (sorted : List (ℕ × RChunk)) (scores : List ℚ) :
    ∀ (f : ℕ) (s : LoopState), LoopInv s →
    LoopInv (loopAux cfg sorted scores f s) := by
  intro f
  induction f with
  | zero => intro s h; simpa only [loopAux] using h
  | succ f ih =>
    intro s h
    rw [loopAux]
    split_ifs with hc
    · by_cases hb : (iterBody cfg sorted scores s).2
      · simp only [hb, if_true]
        exact iterBody_inv cfg sorted scores s h hc.2
      · simp only [hb, if_false]
        exact ih _ (iterBody_inv cfg sorted scores s h hc.2)
    · exact h

theorem initState_inv (scores : List ℚ) : LoopInv (initState scores) := by
  refine ⟨?_, ?_, ?_⟩ <;> simp [initState]


/-! ## Marker lemmas -/

theorem hasMarker_of_findMarkers_ne_nil (s : List Char) (h : findMarkers s ≠ []) :
    HasMarker s := by
  induction s using findMarkers.induct with
  | case1 a b c rest hm _ =>
    exact ⟨[], b, rest, hm.2.2, by rw [hm.1, hm.2.1]; rfl⟩
  | case2 a b c rest hm ih =>
    rw [findMarkers, if_neg hm] at h
    obtain ⟨l, x, r, hx, he⟩ := ih h
    exact ⟨a :: l, x, r, hx, by rw [he, List.cons_append]⟩
  | case3 t ht =>
    exfalso
    apply h
    match t, ht with
    | [], _ => rfl
    | [a], _ => rfl
    | [a, b], _ => rfl
    | a :: b :: c :: rest, ht => exact absurd rfl (ht a b c rest)

theorem findMarkers_ne_nil_of_hasMarker (s : List Char) (h : HasMarker s) :
    findMarkers s ≠ [] := by
  induction s using findMarkers.induct with
  | case1 a b c rest hm _ =>
    rw [findMarkers, if_pos hm]
    simp
  | case2 a b c rest hm ih =>
    rw [findMarkers, if_neg hm]
    apply ih
    obtain ⟨l, x, r, hx, he⟩ := h
    match l, he with
    | [], he =>
      exfalso
      apply hm
      injection he with h1 he
      injection he with h2 he
      injection he with h3 _
      exact ⟨h1, h3, by rw [h2]; exact hx⟩
    | y :: l', he =>
      injection he with _ he
      exact ⟨l', x, r, hx, he⟩
  | case3 t ht =>
    exfalso
    obtain ⟨l, x, r, hx, he⟩ := h
    have hlen : 3 ≤ t.length := by
      rw [he]
      simp [List.length_append]
      omega
    match t, ht with
    | [], _ => simp at hlen
    | [a], _ => simp at hlen
    | [a, b], _ => simp at hlen
    | a :: b :: c :: rest, ht => exact absurd rfl (ht a b c rest)

theorem hasMarker_of_contained (t s : List Char) (h : HasMarker t) (hts : t <:+: s) :
    HasMarker s := by
  obtain ⟨l, x, r, hx, he⟩ := h
  obtain ⟨u, v, huv⟩ := hts
  exact ⟨u ++ l, x, r ++ v, hx, by rw [← huv, he]; simp⟩

theorem dropAnswerTag_isContained (s : List Char) : dropAnswerTag s <:+: s := by
  unfold dropAnswerTag
  split_ifs with h
  · exact ((List.dropWhile_suffix jsIsWs).trans (List.drop_suffix 7 s)).isInfix
  · exact List.infix_refl s

theorem jsTrim_isContained (s : List Char) : jsTrim s <:+: s := by
  unfold jsTrim
  have h1 : (s.dropWhile jsIsWs).reverse.dropWhile jsIsWs <:+ (s.dropWhile jsIsWs).reverse :=
    List.dropWhile_suffix jsIsWs
  have h2 : ((s.dropWhile jsIsWs).reverse.dropWhile jsIsWs).reverse <+: s.dropWhile jsIsWs := by
    have h3 := List.reverse_prefix.mpr h1
    rwa [List.reverse_reverse] at h3
  exact h2.isInfix.trans (List.dropWhile_suffix jsIsWs).isInfix

theorem findMarkers_answer_eq_nil (input : List Char) (h : findMarkers input = []) :
    findMarkers (jsTrim (dropAnswerTag input)) = [] := by
  by_contra hne
  have hm : HasMarker (jsTrim (dropAnswerTag input)) :=
    hasMarker_of_findMarkers_ne_nil _ hne
  have : HasMarker input :=
    hasMarker_of_contained _ _ hm ((jsTrim_isContained _).trans (dropAnswerTag_isContained input))
  exact findMarkers_ne_nil_of_hasMarker input this h

/-! ## Claim theorems -/

/-- C7: `classifyQuery` evaluates its pattern rules in the fixed priority
order definition, specific_section, list, yes_no, procedure, with
`general` as the default and the first matching rule winning; the three
spec examples classify as `definition`, `list` and `specific_section`
respectively, and identical inputs yield identical results. -/
theorem classifyQuery_priority_order_and_examples :
    (∀ q, matchesDefinition q = true → classifyQuery q = .definition) ∧
    (∀ q, matchesDefinition q = false → matchesSectionRef q = true →
      classifyQuery q = .specific_section) ∧
    (∀ q, matchesDefinition q = false → matchesSectionRef q = false →
      matchesList q = true → classifyQuery q = .list) ∧
    (∀ q, matchesDefinition q = false → matchesSectionRef q = false →
      matchesList q = false → matchesYesNo q = true → classifyQuery q = .yes_no) ∧
    (∀ q, matchesDefinition q = false → matchesSectionRef q = false →
      matchesList q = false → matchesYesNo q = false → matchesProcedure q = true →
      classifyQuery q = .procedure) ∧
    (∀ q, matchesDefinition q = false → matchesSectionRef q = false →
      matchesList q = false → matchesYesNo q = false → matchesProcedure q = false →
      classifyQuery q = .general) ∧
    classifyQuery ("What is occupancy classification?".toList) = .definition ∧
    classifyQuery ("List all exit requirements".toList) = .list ∧
    classifyQuery ("Section 4.2.1 requirements".toList) = .specific_section ∧
    (∀ q q', q = q' → classifyQuery q = classifyQuery q') := by
  refine ⟨?_, ?_, ?_, ?_, ?_, ?_, by decide, by decide, by decide, ?_⟩
  · intro q h1
    simp [classifyQuery, h1]
  · intro q h1 h2
    simp [classifyQuery, h1, h2]
  · intro q h1 h2 h3
    simp [classifyQuery, h1, h2, h3]
  · intro q h1 h2 h3 h4
    simp [classifyQuery, h1, h2, h3, h4]
  · intro q h1 h2 h3 h4 h5
    simp [classifyQuery, h1, h2, h3, h4, h5]
  · intro q h1 h2 h3 h4 h5
    simp [classifyQuery, h1, h2, h3, h4, h5]
  · intro q q' h
    rw [h]

/-- Closed witness for C7: the first-match conjunct applied to a concrete
definition query. -/
theorem classifyQuery_priority_order_and_examples_witness :
    classifyQuery ("What is an exit?".toList) = .definition :=
  classifyQuery_priority_order_and_examples.1 _ (by decide)

/-- C10: `classifyQuery` only ever returns one of the six reachable tags
and never `analysis`, so the `analysis` row of the budget tables
(`maxTokens` 4000, `minTokens` 800, retrieval limit 60) is unreachable
through query classification. -/
theorem classifyQuery_never_analysis :
    (∀ q, classifyQuery q ≠ QueryType.analysis ∧
      (classifyQuery q = .definition ∨ classifyQuery q = .specific_section ∨
       classifyQuery q = .list ∨ classifyQuery q = .yes_no ∨
       classifyQuery q = .procedure ∨ classifyQuery q = .general)) ∧
    typeConfig .analysis = ⟨4000, 800, 60⟩ ∧
    retrievalLimits .analysis = 60 := by
  refine ⟨?_, rfl, rfl⟩
  intro q
  unfold classifyQuery
  split_ifs <;> simp

/-- C9: scoring is per-candidate and total: every candidate of the pool is
scored; a candidate with no usable reranker score (absent, or the falsy
`0`) receives the deterministic lexical-overlap fallback, which is the
fraction of whitespace-separated query terms present in the chunk text,
linearly mapped by `r * 8 - 2`, and always lies within the reranker's
score range `[-10, 10]`. -/
theorem scoreAllChunks_fallback_and_bounds :
    (∀ q l, (scoreAllChunks q l).length = l.length) ∧
    (∀ q l i, (scoreAllChunks q l).get? i = (l.get? i).map (scoreOne q i)) ∧
    (∀ q i c, (c.rerank_score = none ∨ c.rerank_score = some 0) →
      (scoreOne q i c).rerank_score = simulateRerankScore q c.text) ∧
    (∀ q i c s, c.rerank_score = some s → s ≠ 0 →
      (scoreOne q i c).rerank_score = s) ∧
    (∀ q t, simulateRerankScore q t = overlapFrac q t * 8 - 2 ∧
      0 ≤ overlapFrac q t ∧ overlapFrac q t ≤ 1 ∧
      -10 ≤ simulateRerankScore q t ∧ simulateRerankScore q t ≤ 10) := by
  refine ⟨?_, ?_, ?_, ?_, ?_⟩
  · intro q l
    simp [scoreAllChunks]
  · intro q l i
    simp only [scoreAllChunks, List.get?_map, List.enum_get?, Option.map_map]
    rfl
  · intro q i c h
    rcases h with h | h <;> simp [scoreOne, h]
  · intro q i c s h hs
    simp [scoreOne, h, hs]
  · intro q t
    have hfrac : 0 ≤ overlapFrac q t ∧ overlapFrac q t ≤ 1 := by
      unfold overlapFrac
      dsimp only
      constructor
      · positivity
      · have hab := List.length_filter_le
          (fun w => decide (w ∈ jsSplitWs (lowerStr t))) (jsSplitWs (lowerStr q))
        rcases Nat.eq_zero_or_pos (jsSplitWs (lowerStr q)).length with hb0 | hbpos
        · rw [hb0] at hab ⊢
          rw [Nat.le_zero.mp hab]
          norm_num
        · rw [div_le_one (by exact_mod_cast hbpos)]
          exact_mod_cast hab
    refine ⟨rfl, hfrac.1, hfrac.2, ?_, ?_⟩
    · unfold simulateRerankScore
      nlinarith [hfrac.1, hfrac.2]
    · unfold simulateRerankScore
      nlinarith [hfrac.1, hfrac.2]

/-- Closed witness for C9: a candidate with an absent reranker score is
scored with the lexical fallback. -/
theorem scoreAllChunks_fallback_and_bounds_witness :
    (scoreOne ("fire".toList) 0
      { text := "the fire door".toList, vector_score := some 1, rerank_score := none }).rerank_score =
      simulateRerankScore ("fire".toList) ("the fire door".toList) :=
  scoreAllChunks_fallback_and_bounds.2.2.1 _ 0 _ (Or.inl rfl)

theorem select_profile_eq (query : List Char) (vectorResults : List VChunk)
    (queryType : QueryType) :
    (selectChunksWithTokenBudget query vectorResults queryType).selectionProfile =
    (loopAux (typeConfig queryType) (sortByVecDesc (scoreAllChunks query vectorResults)).enum
      (sortQDesc ((scoreAllChunks query vectorResults).map (fun c => c.rerank_score))) 21
      (initState (sortQDesc ((scoreAllChunks query vectorResults).map
        (fun c => c.rerank_score))))).selectionProfile := by
  simp only [selectChunksWithTokenBudget]
  split_ifs with h
  · cases hs : sortByVecDesc (scoreAllChunks query vectorResults) with
    | nil => rfl
    | cons b rest => rfl
  · rfl

/-- C4: within one call to `selectChunksWithTokenBudget` the quality-gate
percentile is monotonically non-decreasing across iterations: the
percentiles stamped on the selection trace, in order, never decrease,
and every stamped percentile is at least the starting value 5. -/
theorem percentile_monotone (query : List Char) (vectorResults : List VChunk)
    (queryType : QueryType) :
    List.Chain' (fun a b => a.quality_percentile ≤ b.quality_percentile)
      (selectChunksWithTokenBudget query vectorResults queryType).selectionProfile ∧
    ∀ e ∈ (selectChunksWithTokenBudget query vectorResults queryType).selectionProfile,
      5 ≤ e.quality_percentile := by
  rw [select_profile_eq]
  have hinv := loopAux_inv (typeConfig queryType)
    (sortByVecDesc (scoreAllChunks query vectorResults)).enum
    (sortQDesc ((scoreAllChunks query vectorResults).map (fun c => c.rerank_score))) 21
    (initState (sortQDesc ((scoreAllChunks query vectorResults).map
      (fun c => c.rerank_score))))
    (initState_inv _)
  exact ⟨hinv.2.1, fun e he => (hinv.1 e he).1⟩

/-- C2: `tokensUsed` never exceeds the resolved query type's `maxTokens`,
except in the single-chunk forced-fallback case (the loop admitted
nothing), where the selection is that single chunk and `tokensUsed`
equals its token estimate. -/
theorem tokensUsed_within_budget (query : List Char) (vectorResults : List VChunk)
    (queryType : QueryType) :
    (selectChunksWithTokenBudget query vectorResults queryType).tokensUsed ≤
      (typeConfig queryType).maxTokens ∨
    ((loopAux (typeConfig queryType) (sortByVecDesc (scoreAllChunks query vectorResults)).enum
        (sortQDesc ((scoreAllChunks query vectorResults).map (fun c => c.rerank_score))) 21
        (initState (sortQDesc ((scoreAllChunks query vectorResults).map
          (fun c => c.rerank_score))))).selectedChunks = [] ∧
      ∃ b, (selectChunksWithTokenBudget query vectorResults queryType).selectedChunks = [b] ∧
        (selectChunksWithTokenBudget query vectorResults queryType).tokensUsed =
          estimateTokenCount b.text) := by
  simp only [selectChunksWithTokenBudget]
  split_ifs with h
  · cases hs : sortByVecDesc (scoreAllChunks query vectorResults) with
    | nil =>
      left
      exact loopAux_tokensUsed_le _ _ _ 21 _ (Nat.zero_le _)
    | cons b rest =>
      right
      rw [hs] at h
      exact ⟨h, _, rfl, rfl⟩
  · left
    exact loopAux_tokensUsed_le _ _ _ 21 _ (Nat.zero_le _)

/-- C1: for every non-empty candidate pool the returned `selectedChunks`
is non-empty, and when the adaptive loop admitted nothing the single
candidate with the highest vector score is force-admitted regardless of
the gates. -/
theorem selection_nonEmpty (query : List Char) (vectorResults : List VChunk)
    (queryType : QueryType) (h : vectorResults ≠ []) :
    (selectChunksWithTokenBudget query vectorResults queryType).selectedChunks ≠ [] ∧
    ((loopAux (typeConfig queryType) (sortByVecDesc (scoreAllChunks query vectorResults)).enum
        (sortQDesc ((scoreAllChunks query vectorResults).map (fun c => c.rerank_score))) 21
        (initState (sortQDesc ((scoreAllChunks query vectorResults).map
          (fun c => c.rerank_score))))).selectedChunks = [] →
      ∃ b, (selectChunksWithTokenBudget query vectorResults queryType).selectedChunks = [b] ∧
        MaxVec (scoreAllChunks query vectorResults) b) := by
  obtain ⟨c0, v', rfl⟩ := List.exists_cons_of_ne_nil h
  have hscore : scoreAllChunks query (c0 :: v') ≠ [] := by
    simp [scoreAllChunks]
  have hsort : sortByVecDesc (scoreAllChunks query (c0 :: v')) ≠ [] := by
    rw [Ne, sortByVecDesc_eq_nil_iff]
    exact hscore
  obtain ⟨b0, rest, hs⟩ := List.exists_cons_of_ne_nil hsort
  have hmax : MaxVec (scoreAllChunks query (c0 :: v')) b0 := by
    intro a ha
    exact sortByVecDesc_head_max _ b0 (by rw [hs]; rfl) a ha
  constructor
  · simp only [selectChunksWithTokenBudget]
    split_ifs with hfin
    · rw [hs]
      simp [mkFallbackResult]
    · simpa [mkLoopResult] using hfin
  · intro hempty
    simp only [selectChunksWithTokenBudget]
    rw [if_pos hempty, hs]
    refine ⟨_, rfl, ?_⟩
    intro a ha
    have : vecOf { b0 with rerank_score :=
        if b0.rerank_score = 0 then simulateRerankScore query b0.text
        else b0.rerank_score } = vecOf b0 := rfl
    rw [this]
    exact hmax a ha

/-- Closed witness for C1: the non-empty pool `cexPool` yields a
non-empty selection. -/
theorem selection_nonEmpty_witness :
    (selectChunksWithTokenBudget ['q'] cexPool .definition).selectedChunks ≠ [] :=
  (selection_nonEmpty ['q'] cexPool .definition (by simp [cexPool])).1

/-- C3: during the scan a candidate (not already selected, scan not
stopped) is admitted iff its vector score clears `VECTOR_THRESHOLD`, its
rerank score clears the current percentile threshold, and admitting it
keeps cumulative tokens within `maxTokens`; a budget-crossing candidate
is skipped (scan continues) while `tokensUsed < minTokens`, and stops
the scan once `tokensUsed ≥ minTokens`, after which nothing further is
admitted. -/
theorem admission_gates (cfg : SelectionConfig) (s : LoopState) (i : ℕ) (c : RChunk)
    (hstop : s.stopped = false)
    (hnew : s.selectedChunks.any (fun sc => sc.original_index = c.original_index) = false) :
    ((processChunk cfg s (i, c)).selectedChunks = s.selectedChunks ++ [c] ↔
      VECTOR_THRESHOLD ≤ vecOf c ∧ s.currentThreshold ≤ c.rerank_score ∧
      s.tokensUsed + estimateTokenCount c.text ≤ cfg.maxTokens) ∧
    (VECTOR_THRESHOLD ≤ vecOf c → s.currentThreshold ≤ c.rerank_score →
      cfg.maxTokens < s.tokensUsed + estimateTokenCount c.text →
      s.tokensUsed < cfg.minTokens →
      (processChunk cfg s (i, c)).selectedChunks = s.selectedChunks ∧
      (processChunk cfg s (i, c)).stopped = false) ∧
    (VECTOR_THRESHOLD ≤ vecOf c → s.currentThreshold ≤ c.rerank_score →
      cfg.maxTokens < s.tokensUsed + estimateTokenCount c.text →
      cfg.minTokens ≤ s.tokensUsed →
      (processChunk cfg s (i, c)).stopped = true ∧
      (processChunk cfg s (i, c)).selectedChunks = s.selectedChunks) ∧
    (∀ (l : List (ℕ × RChunk)) (s' : LoopState), s'.stopped = true →
      (l.foldl (processChunk cfg) s').selectedChunks = s'.selectedChunks) := by
  have hne : s.selectedChunks ≠ s.selectedChunks ++ [c] := by
    intro habs
    have := congrArg List.length habs
    simp at this
  refine ⟨?_, ?_, ?_, fun l s' h => by rw [foldl_processChunk_of_stopped cfg l s' h]⟩ <;>
    simp only [processChunk, hstop, hnew, Bool.false_eq_true, if_false] <;>
    split_ifs with h1 h2 h3 h4 <;> dsimp only
  · exact ⟨fun habs => absurd habs hne, fun hg => absurd hg.1 (not_le_of_lt h1)⟩
  · exact ⟨fun habs => absurd habs hne, fun hg => absurd hg.2.1 (not_le_of_lt h2)⟩
  · exact ⟨fun habs => absurd habs hne, fun hg => absurd hg.2.2 (by omega)⟩
  · exact ⟨fun habs => absurd habs hne, fun hg => absurd hg.2.2 (by omega)⟩
  · exact ⟨fun _ => ⟨le_of_not_lt h1, le_of_not_lt h2, le_of_not_lt h3⟩, fun _ => rfl⟩
  · intro hv hr hb hm
    exact absurd hv (not_le_of_lt h1)
  · intro hv hr hb hm
    exact absurd hr (not_le_of_lt h2)
  · intro hv hr hb hm
    omega
  · exact fun hv hr hb hm => ⟨rfl, rfl⟩
  · exact fun hv hr hb hm => absurd hb (by omega)
  · exact fun hv hr hb hm => absurd hv (not_le_of_lt h1)
  · exact fun hv hr hb hm => absurd hr (not_le_of_lt h2)
  · exact fun hv hr hb hm => ⟨rfl, rfl⟩
  · exact fun hv hr hb hm => absurd hm (by omega)
  · exact fun hv hr hb hm => absurd hb (by omega)

set_option maxRecDepth 40000 in
/-- Closed witness for C3: the admission equivalence evaluated in the
initial state of a singleton pool, where the candidate passes all three
gates. -/
theorem admission_gates_witness :
    (processChunk (typeConfig .definition)
        (initState [(5 : ℚ)]) (0, scoreOne ['q'] 0 cexChunk)).selectedChunks =
      (initState [(5 : ℚ)]).selectedChunks ++ [scoreOne ['q'] 0 cexChunk] :=
  ((admission_gates (typeConfig .definition) (initState [(5 : ℚ)]) 0
      (scoreOne ['q'] 0 cexChunk) rfl rfl).1).mpr (by decide)

/-- C5 (amended): the adaptive expansion loop terminates on every input —
any fuel of at least 21 computes the same final state, and the iteration
counter never passes the 20-pass cap — and on exit either `tokensUsed` is
within 100 tokens of `maxTokens` (which covers both reaching `maxTokens`
and the nearly-full early stop after an iteration that admitted chunks),
or the percentile exceeds 100, or the 20-iteration cap was hit. -/
theorem selection_loop_terminates :
    (∀ (cfg : SelectionConfig) (sorted : List (ℕ × RChunk)) (scores : List ℚ) (f : ℕ),
      21 ≤ f → loopAux cfg sorted scores f (initState scores) =
        loopAux cfg sorted scores 21 (initState scores)) ∧
    (∀ (cfg : SelectionConfig) (sorted : List (ℕ × RChunk)) (scores : List ℚ),
      (loopAux cfg sorted scores 21 (initState scores)).iterationNumber ≤ 20) ∧
    (∀ (cfg : SelectionConfig) (sorted : List (ℕ × RChunk)) (scores : List ℚ),
      cfg.maxTokens - 100 ≤ (loopAux cfg sorted scores 21 (initState scores)).tokensUsed ∨
      100 < (loopAux cfg sorted scores 21 (initState scores)).currentPercentile ∨
      20 ≤ (loopAux cfg sorted scores 21 (initState scores)).iterationNumber) := by
  have hiter : ∀ scores : List ℚ, (initState scores).iterationNumber = 0 := fun _ => rfl
  refine ⟨?_, ?_, ?_⟩
  · intro cfg sorted scores f hf
    exact loopAux_stable cfg sorted scores f 21 (initState scores)
      (by rw [hiter]; omega) (by rw [hiter]; omega) (by rw [hiter])
  · intro cfg sorted scores
    exact loopAux_iterationNumber_le cfg sorted scores 21 (initState scores)
      (by rw [hiter]; omega)
  · intro cfg sorted scores
    exact loopAux_exit cfg sorted scores 21 (initState scores) (by rw [hiter])

/-- Closed witness for C5: fuel 25 and fuel 21 agree on an empty pool. -/
theorem selection_loop_terminates_witness :
    loopAux (typeConfig .definition) [] [] 25 (initState []) =
    loopAux (typeConfig .definition) [] [] 21 (initState []) :=
  selection_loop_terminates.1 (typeConfig .definition) [] [] 25 (by omega)

set_option maxRecDepth 40000 in
/-- C5 counterexample: on `cexPool` (ten 70-token candidates under the
`definition` budget of 800) the loop admits all ten in the first pass and
then exits through the nearly-full early stop: at exit `tokensUsed = 700 <
maxTokens`, the percentile is still 5 ≤ 100, and only one iteration ran —
none of the three exit conditions stated by the claim holds. -/
theorem selection_loop_exit_counterexample :
    cexFin.tokensUsed < (typeConfig .definition).maxTokens ∧
    cexFin.currentPercentile ≤ 100 ∧
    cexFin.iterationNumber < 20 := by
  decide

theorem enhance_two (answer : List Char) (s1 s2 : AttributedSource) :
    enhanceAnswerWithReferences answer [s1, s2] =
      (replaceMarker s2.label (numberRef 2) (replaceMarker s1.label (numberRef 1) answer),
       [{ reference := numberRef 1, document := s1.document, document_id := s1.document_id,
          page := s1.page, sectionId := s1.sectionId, excerpt := s1.excerpt },
        { reference := numberRef 2, document := s2.document, document_id := s2.document_id,
          page := s2.page, sectionId := s2.sectionId, excerpt := s2.excerpt }]) := by
  simp [enhanceAnswerWithReferences, List.enum]

/-- C6: the attribution round trip on `"[A] and [B] agree, see also [A]"`
with labels `A` and `B` resolving to chunks of the selection:
`sourcesUsed` is the deduplicated label list in order of first appearance,
the attribution list has exactly one entry per used label in that order,
every marker occurrence is rewritten to the sequential numeric marker, and
the final sources carry matching `[1]`, `[2]` references. -/
theorem citation_roundtrip (cs : List AChunk) (cA cB : AChunk)
    (hA : cs.find? (fun c => c.label = some 'A') = some cA)
    (hB : cs.find? (fun c => c.label = some 'B') = some cB) :
    (parseLLMResponse ("[A] and [B] agree, see also [A]".toList)).sourcesUsed = ['A', 'B'] ∧
    buildLLMGuidedAttribution cs
      (parseLLMResponse ("[A] and [B] agree, see also [A]".toList)).sourcesUsed =
      [mkAttributedSource cA 'A', mkAttributedSource cB 'B'] ∧
    (enhanceAnswerWithReferences
        (parseLLMResponse ("[A] and [B] agree, see also [A]".toList)).answer
        (buildLLMGuidedAttribution cs
          (parseLLMResponse ("[A] and [B] agree, see also [A]".toList)).sourcesUsed)).1 =
      "[1] and [2] agree, see also [1]".toList ∧
    (enhanceAnswerWithReferences
        (parseLLMResponse ("[A] and [B] agree, see also [A]".toList)).answer
        (buildLLMGuidedAttribution cs
          (parseLLMResponse ("[A] and [B] agree, see also [A]".toList)).sourcesUsed)).2 =
      [{ reference := "[1]".toList, document := cA.document, document_id := cA.db_document_id,
         page := pageField cA.page_number, sectionId := sectionField cA.sectionId,
         excerpt := excerptOf cA.text },
       { reference := "[2]".toList, document := cB.document, document_id := cB.db_document_id,
         page := pageField cB.page_number, sectionId := sectionField cB.sectionId,
         excerpt := excerptOf cB.text }] := by
  have h1 : (parseLLMResponse ("[A] and [B] agree, see also [A]".toList)).sourcesUsed =
      ['A', 'B'] := by decide
  have h2 : buildLLMGuidedAttribution cs
      (parseLLMResponse ("[A] and [B] agree, see also [A]".toList)).sourcesUsed =
      [mkAttributedSource cA 'A', mkAttributedSource cB 'B'] := by
    rw [h1]
    simp [buildLLMGuidedAttribution, hA, hB]
  refine ⟨h1, h2, ?_, ?_⟩
  · rw [h2, enhance_two]
    show replaceMarker (mkAttributedSource cB 'B').label (numberRef 2)
      (replaceMarker (mkAttributedSource cA 'A').label (numberRef 1)
        (parseLLMResponse ("[A] and [B] agree, see also [A]".toList)).answer) =
      "[1] and [2] agree, see also [1]".toList
    dsimp only [mkAttributedSource]
    decide
  · rw [h2, enhance_two]
    dsimp only [mkAttributedSource]
    rw [show numberRef 1 = "[1]".toList from by decide,
        show numberRef 2 = "[2]".toList from by decide]

/-- Closed witness for C6: the round trip evaluated on two concrete
labelled chunks. -/
theorem citation_roundtrip_witness :
    (enhanceAnswerWithReferences
        (parseLLMResponse ("[A] and [B] agree, see also [A]".toList)).answer
        (buildLLMGuidedAttribution [witChunkA, witChunkB]
          (parseLLMResponse ("[A] and [B] agree, see also [A]".toList)).sourcesUsed)).1 =
      "[1] and [2] agree, see also [1]".toList :=
  (citation_roundtrip [witChunkA, witChunkB] witChunkA witChunkB
    (by decide) (by decide)).2.2.1

/-- C8 (amended): for an input with no bracketed single-uppercase-letter
markers, parsing yields `sourcesUsed = []`, attribution yields no sources,
and the answer handed back is the input with an optional leading
case-insensitive `ANSWER:` prefix stripped and surrounding whitespace
trimmed — byte-identical to the input exactly when neither transformation
changes it. -/
theorem no_marker_passthrough (input : List Char) (cs : List AChunk)
    (h : findMarkers input = []) :
    (parseLLMResponse input).sourcesUsed = [] ∧
    buildLLMGuidedAttribution cs (parseLLMResponse input).sourcesUsed = [] ∧
    enhanceAnswerWithReferences (parseLLMResponse input).answer
      (buildLLMGuidedAttribution cs (parseLLMResponse input).sourcesUsed) =
      ((parseLLMResponse input).answer, []) ∧
    (parseLLMResponse input).answer = jsTrim (dropAnswerTag input) ∧
    (dropAnswerTag input = input → jsTrim input = input →
      (parseLLMResponse input).answer = input) := by
  have hm : findMarkers (jsTrim (dropAnswerTag input)) = [] :=
    findMarkers_answer_eq_nil input h
  have hsrc : (parseLLMResponse input).sourcesUsed = [] := by
    simp [parseLLMResponse, hm, dedupFirst, dedupFirstAux]
  refine ⟨hsrc, ?_, ?_, rfl, ?_⟩
  · rw [hsrc]
    simp [buildLLMGuidedAttribution]
  · rw [hsrc]
    simp [buildLLMGuidedAttribution, enhanceAnswerWithReferences]
  · intro h1 h2
    show jsTrim (dropAnswerTag input) = input
    rw [h1, h2]

/-- Closed witness for C8's amended claim: a marker-free input with no
prefix and no surrounding whitespace passes through byte-identically. -/
theorem no_marker_passthrough_witness :
    (parseLLMResponse ("no citations here".toList)).sourcesUsed = [] ∧
    (parseLLMResponse ("no citations here".toList)).answer = "no citations here".toList :=
  ⟨(no_marker_passthrough ("no citations here".toList) [] (by decide)).1,
   (no_marker_passthrough ("no citations here".toList) [] (by decide)).2.2.2.2
     (by decide) (by decide)⟩

/-- C8 counterexample: the marker-free input `"ANSWER: The permit is
required."` comes back with the prefix stripped, so the returned answer is
not byte-identical to the input. -/
theorem no_marker_passthrough_counterexample :
    findMarkers ("ANSWER: The permit is required.".toList) = [] ∧
    (parseLLMResponse ("ANSWER: The permit is required.".toList)).sourcesUsed = [] ∧
    (parseLLMResponse ("ANSWER: The permit is required.".toList)).answer ≠
      "ANSWER: The permit is required.".toList := by
  decide

end CodeAlign
